import Mathlib

/-!
Verification development for the neil space-biology chat pipeline.

Strings are modelled as lists of characters (`Str`), JavaScript string
operations as executable Lean functions on them.  Asynchronous fetches are
modelled by their outcomes; in-memory caches as association lists threaded
explicitly.  Every definition follows the corresponding source function in
`src/app/api/chat/route.ts`, `src/lib/scrape.ts` or the suggestions route.
-/

namespace Neil

abbrev Str := List Char

def strOf (s : String) : Str := s.toList

/-- Lowercasing as JavaScript `toLowerCase` acts on the ASCII and Latin-1
characters used by the tokenizer character classes in the source. -/
def jsLower (c : Char) : Char :=
  let n := c.toNat
  if 65 ≤ n ∧ n ≤ 90 then Char.ofNat (n + 32)
  else if 192 ≤ n ∧ n ≤ 222 ∧ n ≠ 215 then Char.ofNat (n + 32)
  else c

/-- The whitespace class of JavaScript regexes and `trim` (the members that
can occur in the data handled here). -/
def isJsWs (c : Char) : Bool :=
  c == ' ' || c == '\t' || c == '\n' || c == '\r' ||
  c.toNat == 12 || c.toNat == 11 || c.toNat == 160

/-- JavaScript `String.prototype.trim`. -/
def jsTrim (s : Str) : Str :=
  ((s.dropWhile fun c => isJsWs c).reverse.dropWhile fun c => isJsWs c).reverse

/-- Boolean prefix test on character lists. -/
def isPref : Str → Str → Bool
  | [], _ => true
  | _ :: _, [] => false
  | a :: as, b :: bs => a == b && isPref as bs

theorem isPref_append (a b : Str) : isPref a (a ++ b) = true := by
  induction a with
  | nil => rfl
  | cons c cs ih => simp [isPref, ih]

/-- JavaScript `String.prototype.split` with a single-character separator. -/
def splitOnChar (sep : Char) : Str → List Str
  | [] => [[]]
  | c :: rest =>
    let r := splitOnChar sep rest
    if c = sep then [] :: r
    else
      match r with
      | [] => [[c]]
      | h :: t => (c :: h) :: t

/-- Splitting on the line separator regex of the CSV parsers: a newline with
an optional preceding carriage return. -/
def splitJsLines : Str → List Str
  | [] => [[]]
  | '\n' :: rest => [] :: splitJsLines rest
  | '\r' :: '\n' :: rest => [] :: splitJsLines rest
  | c :: rest =>
    match splitJsLines rest with
    | [] => [[c]]
    | h :: t => (c :: h) :: t

/-! ## Image proxying (`proxyUrl`, `proxyHtmlImages` in route.ts) -/

/-- The characters `encodeURIComponent` leaves unescaped. -/
def isUnreservedURI (c : Char) : Bool :=
  c.isAlpha || c.isDigit ||
  c == '-' || c == '_' || c == '.' || c == '!' || c == '~' ||
  c == '*' || c.toNat == 39 || c == '(' || c == ')'

def hexDigitChar (n : Nat) : Char :=
  if n < 10 then Char.ofNat (48 + n) else Char.ofNat (55 + n)

/-- UTF-8 bytes of a code point. -/
def utf8Bytes (c : Char) : List Nat :=
  let n := c.toNat
  if n < 128 then [n]
  else if n < 2048 then [192 + n / 64, 128 + n % 64]
  else if n < 65536 then [224 + n / 4096, 128 + (n / 64) % 64, 128 + n % 64]
  else [240 + n / 262144, 128 + (n / 4096) % 64, 128 + (n / 64) % 64, 128 + n % 64]

def pctByte (b : Nat) : Str := ['%', hexDigitChar (b / 16), hexDigitChar (b % 16)]

/-- JavaScript `encodeURIComponent`. -/
def encodeURIComponent (s : Str) : Str :=
  s.flatMap fun c => if isUnreservedURI c then [c] else (utf8Bytes c).flatMap pctByte

def apiImgPre : Str := strOf "/api/image?url="

/-- The case-insensitive `data:` scheme test of `proxyUrl`. -/
def isDataUrl (u : Str) : Bool := isPref (strOf "data:") ((u.take 5).map jsLower)

/-- `proxyUrl` from route.ts: pass through empty, already proxied, and
`data:` URLs; rewrite everything else through the image proxy. -/
def proxyUrl (u : Str) : Str :=
  if u = [] then u
  else if isPref apiImgPre u then u
  else if isDataUrl u then u
  else apiImgPre ++ encodeURIComponent u

/-- The matched text of one `<img …>` occurrence in `proxyHtmlImages`,
reassembled from the regex groups (attribute text before `src`, the quote
character, the `src` value, the attribute text after it). -/
def imgTagRebuild (pre : Str) (q : Char) (src post : Str) : Str :=
  strOf "<img" ++ pre ++ strOf "src=" ++ [q] ++ src ++ [q] ++ post ++ ['>']

/-- The per-match replacement function of `proxyHtmlImages`. -/
def imgMatchReplace (pre : Str) (q : Char) (src post : Str) : Str :=
  if src = [] ∨ isPref apiImgPre src = true ∨ isDataUrl src = true then
    imgTagRebuild pre q src post
  else imgTagRebuild pre q (proxyUrl src) post

theorem proxyUrl_ne_nil_of_rewrite (u : Str) (h1 : ¬u = [])
    (h2 : ¬isPref apiImgPre u = true) (h3 : ¬isDataUrl u = true) :
    proxyUrl u = apiImgPre ++ encodeURIComponent u := by
  simp [proxyUrl, h1, h2, h3]

theorem proxyUrl_pass (u : Str)
    (h : u = [] ∨ isPref apiImgPre u = true ∨ isDataUrl u = true) :
    proxyUrl u = u := by
  rcases h with h | h | h
  · simp [proxyUrl, h]
  · by_cases h0 : u = [] <;> simp [proxyUrl, h0, h]
  · by_cases h0 : u = [] <;> by_cases h1 : isPref apiImgPre u = true <;>
      simp [proxyUrl, h0, h1, h]

theorem proxyUrl_idem_aux (u : Str) : proxyUrl (proxyUrl u) = proxyUrl u := by
  by_cases h0 : u = []
  · simp [proxyUrl, h0]
  by_cases h1 : isPref apiImgPre u = true
  · rw [proxyUrl_pass u (Or.inr (Or.inl h1)), proxyUrl_pass u (Or.inr (Or.inl h1))]
  by_cases h2 : isDataUrl u = true
  · rw [proxyUrl_pass u (Or.inr (Or.inr h2)), proxyUrl_pass u (Or.inr (Or.inr h2))]
  rw [proxyUrl_ne_nil_of_rewrite u h0 h1 h2]
  exact proxyUrl_pass _ (Or.inr (Or.inl (isPref_append _ _)))

/-- Claim C10: `proxyUrl` is idempotent and total: already-proxied, `data:` and
empty strings pass through unchanged, every other URL gains exactly one layer
of `/api/image?url=` plus URL-encoding, and re-running the per-image-tag
rewrite of `proxyHtmlImages` on an already-proxied `src` leaves it unchanged,
so image sources are never double-proxied. -/
theorem C10_proxyUrl_idempotent :
    (∀ u : Str, proxyUrl (proxyUrl u) = proxyUrl u) ∧
    (∀ u : Str, u = [] ∨ isPref apiImgPre u = true ∨ isDataUrl u = true →
      proxyUrl u = u) ∧
    (∀ u : Str, ¬u = [] → ¬isPref apiImgPre u = true → ¬isDataUrl u = true →
      proxyUrl u = apiImgPre ++ encodeURIComponent u) ∧
    (∀ pre post src : Str, ∀ q : Char,
      imgMatchReplace pre q (proxyUrl src) post = imgTagRebuild pre q (proxyUrl src) post) := by
  refine ⟨proxyUrl_idem_aux, fun u h => proxyUrl_pass u h, proxyUrl_ne_nil_of_rewrite, ?_⟩
  intro pre post src q
  by_cases h0 : src = []
  · simp [imgMatchReplace, proxyUrl, h0]
  by_cases h1 : isPref apiImgPre src = true
  · rw [proxyUrl_pass src (Or.inr (Or.inl h1))]
    simp [imgMatchReplace, h1]
  by_cases h2 : isDataUrl src = true
  · rw [proxyUrl_pass src (Or.inr (Or.inr h2))]
    simp [imgMatchReplace, h2]
  · rw [proxyUrl_ne_nil_of_rewrite src h0 h1 h2]
    simp [imgMatchReplace, isPref_append]

/-- Witness for C10 at a concrete URL: proxying twice equals proxying once,
and the single layer is the encoded rewrite. -/
theorem C10_proxyUrl_idempotent_witness :
    proxyUrl (proxyUrl (strOf "https://host/fig 1.png")) = proxyUrl (strOf "https://host/fig 1.png") ∧
    proxyUrl (strOf "data:image/png;base64,AA") = strOf "data:image/png;base64,AA" := by
  refine ⟨C10_proxyUrl_idempotent.1 _, ?_⟩
  exact C10_proxyUrl_idempotent.2.1 _ (Or.inr (Or.inr (by decide)))

/-! ## Content extraction (`scrapeArticle` in scrape.ts) -/

structure Article where
  title : Str
  link : Str
deriving DecidableEq

structure ScrapedImage where
  src : Str
  alt : Option Str
  caption : Option Str
deriving DecidableEq

structure ScrapeData where
  text : Str
  images : List ScrapedImage
deriving DecidableEq

def emptyScrape : ScrapeData := ⟨[], []⟩

def MAX_MAIN_TEXT_CHARS : Nat := 20000
def MAX_IMAGES : Nat := 18
def SCRAPE_TTL : Nat := 600000

/-- The `replace(/\s+/g, ' ')` whitespace collapse: map whitespace to spaces,
then squeeze runs of spaces to one. -/
def squeezeSpaces : Str → Str
  | [] => []
  | [c] => [c]
  | c :: d :: rest =>
    if c = ' ' ∧ d = ' ' then squeezeSpaces (d :: rest)
    else c :: squeezeSpaces (d :: rest)

def collapseWs (s : Str) : Str :=
  squeezeSpaces (s.map fun c => if isJsWs c then ' ' else c)

/-- JavaScript truthiness of a nullable string attribute: `null` and the
empty string are both falsy. -/
def optNE (o : Option Str) : Option Str :=
  match o with
  | some s => if s = [] then none else some s
  | none => none

/-- The `a || b` chain on nullable string attributes. -/
def orNE (a b : Option Str) : Option Str :=
  match optNE a with
  | some s => some s
  | none => optNE b

/-- `parseSrcset`: take the first comma-separated candidate, then its first
space-separated token. -/
def parseSrcset (ss : Option Str) : Option Str :=
  match ss with
  | none => none
  | some s =>
    match (splitOnChar ',' s).head? with
    | none => none
    | some first =>
      let f := jsTrim first
      if f = [] then none
      else
        match (splitOnChar ' ' f).head? with
        | none => none
        | some u0 =>
          let u := jsTrim u0
          if u = [] then none else some u

/-- The `<img>` (or `<amp-img>`) attributes consulted by the extractor. -/
structure ImgEl where
  src : Option Str
  dataSrc : Option Str
  dataOriginal : Option Str
  dataLazySrc : Option Str
  srcset : Option Str
  dataSrcset : Option Str
  alt : Option Str

/-- One `<figure>` as seen by `findFigureImageUrl`: its first image element,
the first nested `<source>` srcsets, the first anchor href, and the
`<figcaption>` text. -/
structure FigEl where
  img : Option ImgEl
  sourceSrcset : Option Str
  sourceDataSrcset : Option Str
  aHref : Option Str
  figcaption : Option Str

/-- A standalone `<img>` with its ancestor-walk result. -/
structure StandaloneImg where
  el : ImgEl
  insideFigure : Bool

def extAlts : List Str :=
  [strOf "png", strOf "jpg", strOf "jpeg", strOf "webp", strOf "gif",
   strOf "bmp", strOf "tif", strOf "tiff"]

/-- `/\.(png|jpe?g|webp|gif|bmp|tiff?)($|\?)/i` tested at one position. -/
def isImgExtAt (s : Str) : Bool :=
  match s with
  | '.' :: rest =>
    extAlts.any fun e =>
      isPref e (rest.map jsLower) &&
      (match rest.drop e.length with
       | [] => true
       | c :: _ => c == '?')
  | _ => false

/-- The image-extension regex as a search over the whole string. -/
def hasImgExt (s : Str) : Bool :=
  (List.range s.length).any fun i => isImgExtAt (s.drop i)

/-- `findFigureImageUrl`: resolve a figure image source by the layered
fallback chain, absolutize it, and carry the image `alt`. -/
def findFigureImageUrl (absF : Str → Str) (fig : FigEl) : Option (Str × Option Str) :=
  let fromImg : Option Str :=
    match fig.img with
    | none => none
    | some im =>
      match orNE (orNE (orNE im.src im.dataSrc) im.dataOriginal) im.dataLazySrc with
      | some r => some r
      | none =>
        match parseSrcset im.srcset with
        | some r => some r
        | none => parseSrcset im.dataSrcset
  let alt : Option Str :=
    match fig.img with
    | none => none
    | some im => optNE im.alt
  let raw2 : Option Str :=
    match fromImg with
    | some r => some r
    | none => parseSrcset (orNE fig.sourceSrcset fig.sourceDataSrcset)
  let raw3 : Option Str :=
    match raw2 with
    | some r => some r
    | none =>
      let href := match fig.aHref with | some h => h | none => []
      if hasImgExt href then some href else none
  match raw3 with
  | none => none
  | some raw => some (absF raw, alt)

/-- Figure caption text: collapsed, truncated to 400 chars, empty made
undefined. -/
def figCaptionText (fig : FigEl) : Option Str :=
  match fig.figcaption with
  | none => none
  | some t => optNE (some ((collapseWs (jsTrim t)).take 400))

/-- One figure's contribution to the image list. -/
def figToImage (absF : Str → Str) (fig : FigEl) : Option ScrapedImage :=
  match findFigureImageUrl absF fig with
  | none => none
  | some (src, alt) =>
    let caption := figCaptionText fig
    let altFinal : Option Str :=
      match alt with
      | some a => some a
      | none =>
        match caption with
        | some cp => some (cp.take 120)
        | none => none
    some ⟨src, altFinal, caption⟩

/-- The figure pass: at most `MAX_IMAGES` figures are visited. -/
def figuresPhase (absF : Str → Str) (figs : List FigEl) : List ScrapedImage :=
  (figs.take MAX_IMAGES).foldl
    (fun acc fig =>
      match figToImage absF fig with
      | none => acc
      | some i => acc ++ [i]) []

/-- The source chain of the standalone-image pass. -/
def standaloneRaw (im : ImgEl) : Option Str :=
  match orNE (orNE im.src im.dataSrc) im.dataOriginal with
  | some r => some r
  | none =>
    match parseSrcset im.srcset with
    | some r => some r
    | none => parseSrcset im.dataSrcset

/-- The standalone-image pass: skip images inside figures, dedup by resolved
URL, stop as soon as the cap is reached. -/
def standalonePhase (absF : Str → Str) :
    List StandaloneImg → List ScrapedImage → List Str → List ScrapedImage
  | [], acc, _ => acc
  | si :: rest, acc, used =>
    if si.insideFigure then standalonePhase absF rest acc used
    else
      match standaloneRaw si.el with
      | none => standalonePhase absF rest acc used
      | some raw =>
        if absF raw ∈ used then standalonePhase absF rest acc used
        else
          if MAX_IMAGES ≤ (acc ++ [ScrapedImage.mk (absF raw) (optNE si.el.alt) none]).length then
            acc ++ [ScrapedImage.mk (absF raw) (optNE si.el.alt) none]
          else
            standalonePhase absF rest (acc ++ [ScrapedImage.mk (absF raw) (optNE si.el.alt) none])
              (absF raw :: used)

/-- The parsed page as consumed by the body of `scrapeArticle`: the main
element's text content after boilerplate removal, its figures, its images
with the ancestor-walk flag, and absolutization against the page URL. -/
structure Page where
  mainRawText : Str
  figs : List FigEl
  imgs : List StandaloneImg
  absF : Str → Str

/-- The extraction body of `scrapeArticle` on a successfully parsed page. -/
def extractFromPage (p : Page) : ScrapeData :=
  let text := (collapseWs (jsTrim p.mainRawText)).take MAX_MAIN_TEXT_CHARS
  let figures := figuresPhase p.absF p.figs
  let images :=
    if figures.length < MAX_IMAGES then
      standalonePhase p.absF p.imgs figures (figures.map fun f => f.src)
    else figures
  ⟨text, images⟩

/-- The outcome of fetching and parsing one article URL.  A network error is
a thrown exception; a non-2xx response returns early; `ok (.error e)` models
the HTML parser or extraction throwing on malformed input. -/
inductive FetchResult where
  | netErr
  | httpErr
  | ok (page : Except Str Page)

/-- The body of `scrapeArticle` (the `try` block), with thrown exceptions in
the `Except` error track. -/
def scrapeArticleE : FetchResult → Except Str ScrapeData
  | .netErr => .error (strOf "fetch failed")
  | .httpErr => .ok emptyScrape
  | .ok (.error e) => .error e
  | .ok (.ok p) => .ok (extractFromPage p)

/-- `scrapeArticle`: the surrounding `catch` converts any thrown exception to
the empty result. -/
def scrapeArticle (f : FetchResult) : ScrapeData :=
  match scrapeArticleE f with
  | .ok r => r
  | .error _ => emptyScrape

/-- Claim C5: the text extractor is total and non-throwing: a network
failure, a non-2xx response, or a parse/extraction exception on malformed
HTML all yield the empty result instead of an escaping exception. -/
theorem C5_scrapeArticle_no_throw (f : FetchResult)
    (h : f = .netErr ∨ f = .httpErr ∨ ∃ e, f = .ok (.error e)) :
    scrapeArticle f = emptyScrape := by
  rcases h with h | h | ⟨e, h⟩ <;> subst h <;> rfl

/-- Witness for C5: a network failure yields the empty result. -/
theorem C5_scrapeArticle_no_throw_witness :
    scrapeArticle .netErr = emptyScrape :=
  C5_scrapeArticle_no_throw .netErr (Or.inl rfl)

theorem figuresPhase_le (absF : Str → Str) (figs : List FigEl) :
    (figuresPhase absF figs).length ≤ MAX_IMAGES := by
  have key : ∀ (l : List FigEl) (acc : List ScrapedImage),
      (l.foldl (fun acc fig =>
        match figToImage absF fig with
        | none => acc
        | some i => acc ++ [i]) acc).length ≤ acc.length + l.length := by
    intro l
    induction l with
    | nil => intro acc; simp
    | cons fig rest ih =>
      intro acc
      simp only [List.foldl_cons]
      cases figToImage absF fig with
      | none =>
        calc _ ≤ acc.length + rest.length := ih acc
        _ ≤ acc.length + (fig :: rest).length := by
          simp only [List.length_cons]; omega
      | some i =>
        calc _ ≤ (acc ++ [i]).length + rest.length := ih (acc ++ [i])
        _ ≤ acc.length + (fig :: rest).length := by
          simp only [List.length_append, List.length_cons, List.length_nil]; omega
  calc (figuresPhase absF figs).length ≤ 0 + (figs.take MAX_IMAGES).length := key _ []
  _ ≤ MAX_IMAGES := by simp [List.length_take]

theorem standalonePhase_le (absF : Str → Str) (l : List StandaloneImg) :
    ∀ (acc : List ScrapedImage) (used : List Str), acc.length < MAX_IMAGES →
    (standalonePhase absF l acc used).length ≤ MAX_IMAGES := by
  induction l with
  | nil =>
    intro acc used h
    simpa [standalonePhase] using Nat.le_of_lt h
  | cons si rest ih =>
    intro acc used h
    simp only [standalonePhase]
    split
    · exact ih acc used h
    split
    · exact ih acc used h
    split
    · exact ih acc used h
    split
    · simp only [List.length_append, List.length_cons, List.length_nil]
      omega
    · refine ih _ _ ?_
      next hcap =>
        simp only [List.length_append, List.length_cons, List.length_nil] at hcap ⊢
        omega

/-- Claim C9: for every fetch outcome and page content, the extracted text
has at most 20000 characters and the image list at most 18 entries. -/
theorem C9_scrapeArticle_bounds (f : FetchResult) :
    (scrapeArticle f).text.length ≤ 20000 ∧
    (scrapeArticle f).images.length ≤ 18 := by
  have hempty : emptyScrape.text.length ≤ 20000 ∧ emptyScrape.images.length ≤ 18 := by
    simp [emptyScrape]
  match f with
  | .netErr => exact hempty
  | .httpErr => exact hempty
  | .ok (.error e) => exact hempty
  | .ok (.ok p) =>
    constructor
    · show ((collapseWs (jsTrim p.mainRawText)).take MAX_MAIN_TEXT_CHARS).length ≤ 20000
      exact List.length_take_le _ _
    · show (extractFromPage p).images.length ≤ 18
      simp only [extractFromPage]
      split
      · next hlt => exact standalonePhase_le p.absF p.imgs _ _ hlt
      · next hge => exact figuresPhase_le p.absF p.figs

/-! ## Batch scraping (`batchScrape` in scrape.ts) -/

structure ScrapedArticle where
  title : Str
  link : Str
  text : Str
  images : List ScrapedImage
deriving DecidableEq

/-- `batchScrape`: `Promise.all` over the article list collects per-article
results positionally; `fetched` models the per-URL result of `getScraped`. -/
def batchScrape (fetched : Str → ScrapeData) (articles : List Article) :
    List ScrapedArticle :=
  articles.map fun a => ⟨a.title, a.link, (fetched a.link).text, (fetched a.link).images⟩

/-- Claim C4: `batchScrape` returns exactly one output per input article,
positionally aligned: the i-th output carries the i-th input's title and link
with that article's fetched text and images, and an empty (failed) fetch at
position i yields empty text and images there without dropping the entry or
disturbing any other position. -/
theorem C4_batchScrape_alignment (fetched : Str → ScrapeData)
    (articles : List Article) (i : Nat) (a : Article)
    (hi : articles[i]? = some a) :
    (batchScrape fetched articles).length = articles.length ∧
    (batchScrape fetched articles)[i]? =
      some ⟨a.title, a.link, (fetched a.link).text, (fetched a.link).images⟩ ∧
    (fetched a.link = emptyScrape →
      (batchScrape fetched articles)[i]? = some ⟨a.title, a.link, [], []⟩) := by
  refine ⟨by simp [batchScrape], ?_, ?_⟩
  · simp [batchScrape, List.getElem?_map, hi]
  · intro hfail
    simp [batchScrape, List.getElem?_map, hi, hfail, emptyScrape]

/-- Witness for C4: a three-article batch whose middle fetch fails still has
length 3, with the failed slot holding empty text and images and the
neighbours populated. -/
theorem C4_batchScrape_alignment_witness :
    (batchScrape
        (fun l => if l = strOf "https://x.test/b" then emptyScrape
                  else ⟨strOf "body", []⟩)
        [⟨strOf "A", strOf "https://x.test/a"⟩,
         ⟨strOf "B", strOf "https://x.test/b"⟩,
         ⟨strOf "C", strOf "https://x.test/c"⟩])[1]? =
      some ⟨strOf "B", strOf "https://x.test/b", [], []⟩ := by
  exact (C4_batchScrape_alignment _ _ 1 ⟨strOf "B", strOf "https://x.test/b"⟩ (by decide)).2.2 (by decide)

/-! ## Scrape caches (`getScraped`, `scrapeArticleHtml` in scrape.ts) -/

structure CacheEntry (α : Type) where
  ts : Nat
  data : α
deriving DecidableEq

/-- The URL-keyed in-memory `Map`. -/
abbrev Cache (α : Type) : Type := List (Str × CacheEntry α)

def cacheLookup {α : Type} : Cache α → Str → Option (CacheEntry α)
  | [], _ => none
  | (k, v) :: rest, url => if k = url then some v else cacheLookup rest url

/-- `Map.set`: overwrite the entry for the key, otherwise append. -/
def cacheSet {α : Type} (c : Cache α) (url : Str) (e : CacheEntry α) : Cache α :=
  match c with
  | [] => [(url, e)]
  | (k, v) :: rest =>
    if k = url then (url, e) :: rest else (k, v) :: cacheSet rest url e

/-- `getScraped`: fresh entries are returned without refetching; otherwise
the article is scraped (result `computed`), stored with the current
timestamp, and returned.  The boolean records whether `scrapeArticle` ran. -/
def getScraped (c : Cache ScrapeData) (url : Str) (now : Nat)
    (computed : ScrapeData) : ScrapeData × Cache ScrapeData × Bool :=
  match cacheLookup c url with
  | some e =>
    if now - e.ts < SCRAPE_TTL then (e.data, c, false)
    else (computed, cacheSet c url ⟨now, computed⟩, true)
  | none => (computed, cacheSet c url ⟨now, computed⟩, true)

/-- The caching wrapper of `scrapeArticleHtml`: fresh entries are returned
without refetching; otherwise the page is re-extracted (result `computed`),
which is stored only when non-empty after trimming. -/
def getScrapedHtml (c : Cache Str) (url : Str) (now : Nat)
    (computed : Str) : Str × Cache Str × Bool :=
  match cacheLookup c url with
  | some e =>
    if now - e.ts < SCRAPE_TTL then (e.data, c, false)
    else
      (computed,
       if computed ≠ [] ∧ jsTrim computed ≠ [] then cacheSet c url ⟨now, computed⟩ else c,
       true)
  | none =>
    (computed,
     if computed ≠ [] ∧ jsTrim computed ≠ [] then cacheSet c url ⟨now, computed⟩ else c,
     true)

theorem cacheSet_lookup_other {α : Type} (c : Cache α) (url u : Str)
    (e : CacheEntry α) (h : u ≠ url) :
    cacheLookup (cacheSet c url e) u = cacheLookup c u := by
  induction c with
  | nil => simp [cacheSet, cacheLookup, Ne.symm h]
  | cons p rest ih =>
    obtain ⟨k, v⟩ := p
    by_cases hk : k = url
    · subst hk
      simp [cacheSet, cacheLookup, Ne.symm h]
    · by_cases hku : k = u
      · subst hku
        simp [cacheSet, cacheLookup, hk]
      · simp [cacheSet, cacheLookup, hk, hku, ih]

/-- Counterexample to C8 as stated: for the structured-HTML cache, a stale
entry whose recomputation yields the empty string is returned but NOT stored
with the new timestamp: the stale entry survives unchanged. -/
theorem C8_html_cache_counterexample :
    getScrapedHtml [(strOf "u", ⟨0, strOf "old"⟩)] (strOf "u") 600000 [] =
      ([], [(strOf "u", ⟨0, strOf "old"⟩)], true) ∧
    cacheLookup (getScrapedHtml [(strOf "u", ⟨0, strOf "old"⟩)] (strOf "u") 600000 []).2.1
        (strOf "u") ≠ some ⟨600000, []⟩ := by
  constructor
  · rfl
  · intro h
    simp [getScrapedHtml, cacheLookup, cacheSet, List.find?, SCRAPE_TTL] at h

/-- Claim C8 as amended: on both caches a fresh hit returns the cached value
without refetching, and a stale or missing entry triggers recomputation whose
result is returned; the plain-text cache always stores the recomputed value
under the new timestamp, while the structured-HTML cache stores it only when
it is non-empty after trimming, leaving any stale entry in place otherwise.
Neither cache touches entries of other URLs. -/
theorem C8_cache_ttl_amended (now : Nat) (url : Str) :
    (∀ (c : Cache ScrapeData) (e : CacheEntry ScrapeData) (v : ScrapeData),
      cacheLookup c url = some e → now - e.ts < SCRAPE_TTL →
        getScraped c url now v = (e.data, c, false)) ∧
    (∀ (c : Cache ScrapeData) (v : ScrapeData),
      (∀ e, cacheLookup c url = some e → ¬(now - e.ts < SCRAPE_TTL)) →
        getScraped c url now v = (v, cacheSet c url ⟨now, v⟩, true) ∧
        cacheLookup (getScraped c url now v).2.1 url = some ⟨now, v⟩) ∧
    (∀ (c : Cache Str) (e : CacheEntry Str) (v : Str),
      cacheLookup c url = some e → now - e.ts < SCRAPE_TTL →
        getScrapedHtml c url now v = (e.data, c, false)) ∧
    (∀ (c : Cache Str) (v : Str),
      (∀ e, cacheLookup c url = some e → ¬(now - e.ts < SCRAPE_TTL)) →
        getScrapedHtml c url now v =
          (v, if v ≠ [] ∧ jsTrim v ≠ [] then cacheSet c url ⟨now, v⟩ else c, true)) ∧
    (∀ (c : Cache ScrapeData) (v : ScrapeData) (u : Str), u ≠ url →
      cacheLookup (getScraped c url now v).2.1 u = cacheLookup c u) ∧
    (∀ (c : Cache Str) (v : Str) (u : Str), u ≠ url →
      cacheLookup (getScrapedHtml c url now v).2.1 u = cacheLookup c u) := by
  have setLookup : ∀ {α : Type} (c : Cache α) (e : CacheEntry α),
      cacheLookup (cacheSet c url e) url = some e := by
    intro α c e
    induction c with
    | nil => simp [cacheSet, cacheLookup]
    | cons p rest ih =>
      obtain ⟨k, v⟩ := p
      by_cases hk : k = url
      · subst hk; simp [cacheSet, cacheLookup]
      · simp [cacheSet, cacheLookup, hk, ih]
  refine ⟨?_, ?_, ?_, ?_, ?_, ?_⟩
  · intro c e v he hts
    simp [getScraped, he, hts]
  · intro c v hstale
    cases hc : cacheLookup c url with
    | none => refine ⟨by simp [getScraped, hc], ?_⟩; simp [getScraped, hc, setLookup]
    | some e =>
      have := hstale e hc
      refine ⟨by simp [getScraped, hc, this], ?_⟩
      simp [getScraped, hc, this, setLookup]
  · intro c e v he hts
    simp [getScrapedHtml, he, hts]
  · intro c v hstale
    cases hc : cacheLookup c url with
    | none => simp [getScrapedHtml, hc]
    | some e =>
      have := hstale e hc
      simp [getScrapedHtml, hc, this]
  · intro c v u hu
    cases hc : cacheLookup c url with
    | none => simpa [getScraped, hc] using cacheSet_lookup_other c url u _ hu
    | some e =>
      by_cases hts : now - e.ts < SCRAPE_TTL
      · simp [getScraped, hc, hts]
      · simpa [getScraped, hc, hts] using cacheSet_lookup_other c url u _ hu
  · intro c v u hu
    cases hc : cacheLookup c url with
    | none =>
      by_cases hv : v ≠ [] ∧ jsTrim v ≠ []
      · simpa [getScrapedHtml, hc, hv] using cacheSet_lookup_other c url u _ hu
      · simp [getScrapedHtml, hc, hv]
    | some e =>
      by_cases hts : now - e.ts < SCRAPE_TTL
      · simp [getScrapedHtml, hc, hts]
      · by_cases hv : v ≠ [] ∧ jsTrim v ≠ []
        · simpa [getScrapedHtml, hc, hts, hv] using cacheSet_lookup_other c url u _ hu
        · simp [getScrapedHtml, hc, hts, hv]

/-- Witness for C8 (amended): a fresh hit on the text cache is served from
the cache without a fetch, and a stale miss stores the recomputed value. -/
theorem C8_cache_ttl_amended_witness :
    getScraped [(strOf "u", ⟨100, ⟨strOf "cached", []⟩⟩)] (strOf "u") 200 ⟨strOf "new", []⟩ =
      (⟨strOf "cached", []⟩, [(strOf "u", ⟨100, ⟨strOf "cached", []⟩⟩)], false) ∧
    getScraped [(strOf "u", ⟨0, ⟨strOf "cached", []⟩⟩)] (strOf "u") 600000 ⟨strOf "new", []⟩ =
      (⟨strOf "new", []⟩, [(strOf "u", ⟨600000, ⟨strOf "new", []⟩⟩)], true) := by
  constructor
  · exact (C8_cache_ttl_amended 200 (strOf "u")).1
      [(strOf "u", ⟨100, ⟨strOf "cached", []⟩⟩)] ⟨100, ⟨strOf "cached", []⟩⟩
      ⟨strOf "new", []⟩ (by decide) (by decide)
  · have hstale : ∀ e, cacheLookup
        [(strOf "u", (⟨0, ⟨strOf "cached", []⟩⟩ : CacheEntry ScrapeData))] (strOf "u") =
          some e → ¬(600000 - e.ts < SCRAPE_TTL) := by
      intro e he
      rw [show cacheLookup
            [(strOf "u", (⟨0, ⟨strOf "cached", []⟩⟩ : CacheEntry ScrapeData))] (strOf "u") =
            some ⟨0, ⟨strOf "cached", []⟩⟩ from by decide] at he
      cases he
      decide
    have h := ((C8_cache_ttl_amended 600000 (strOf "u")).2.1 _ ⟨strOf "new", []⟩ hstale).1
    rw [h]
    decide

/-! ## CSV parsing (route.ts `parseCsv` and the suggestions route) -/

namespace ChatRoute

/-- `parseCsv` from route.ts: naive comma split with a header lookup; a
quoted title is not treated specially ("no embedded commas assumption"). -/
def parseCsv (csv : Str) : List Article :=
  let lines := (splitJsLines csv).filter fun l => jsTrim l ≠ []
  if lines.length < 2 then []
  else
    let header := (splitOnChar ',' (lines.headD [])).map fun h => (jsTrim h).map jsLower
    match header.findIdx? (fun h => isPref (strOf "title") h),
          header.findIdx? (fun h => h == strOf "link" || h == strOf "url") with
    | some ti, some li =>
      (lines.drop 1).foldl
        (fun acc line =>
          let cols := splitOnChar ',' line
          if cols.length ≤ max ti li then acc
          else
            let title := jsTrim (cols.getD ti [])
            let link := jsTrim (cols.getD li [])
            if title ≠ [] ∧ link ≠ [] then acc ++ [⟨title, link⟩] else acc)
        []
    | _, _ => []

end ChatRoute

namespace Sugg

structure CsvRow where
  title : Str
  link : Str
deriving DecidableEq

/-- The `/title\s*,\s*link/i` header test at one position. -/
def titleLinkHeaderAt (s : Str) : Bool :=
  if isPref (strOf "title") (s.map jsLower) then
    match (s.drop 5).dropWhile (fun c => isJsWs c) with
    | ',' :: r2 => isPref (strOf "link") (((r2.dropWhile fun c => isJsWs c).take 4).map jsLower)
    | _ => false
  else false

/-- The `/title\s*,\s*link/i` header test as a search. -/
def hasTitleLinkHeader (s : Str) : Bool :=
  (List.range s.length).any fun i => titleLinkHeaderAt (s.drop i)

/-- The `(https?:\/\/.+)$` tail of the two row regexes. -/
def httpTail (l : Str) : Bool :=
  (isPref (strOf "http://") l && decide (7 < l.length)) ||
  (isPref (strOf "https://") l && decide (8 < l.length))

/-- All ways to read a line tail as `title` + `",` + link.  Used with a
greedy (last) choice for `/^"(.*)",(https?:\/\/.+)$/`. -/
def quotedSplits (t : Str) : List (Str × Str) :=
  (List.range (t.length + 1)).filterMap fun i =>
    match t.drop i with
    | '\x22' :: ',' :: L => if httpTail L then some (t.take i, L) else none
    | _ => none

/-- The quoted-title row pattern `/^"(.*)",(https?:\/\/.+)$/` (greedy: the
last viable split wins). -/
def quotedMatch (l : Str) : Option (Str × Str) :=
  match l with
  | '\x22' :: t => (quotedSplits t).getLast?
  | _ => none

/-- The plain row pattern `/^(.*?),(https?:\/\/.+)$/` (lazy: the first comma
with a viable URL tail wins). -/
def plainSplit (t : Str) : Option (Str × Str) :=
  ((List.range (t.length + 1)).filterMap fun i =>
    match t.drop i with
    | ',' :: L => if httpTail L then some (t.take i, L) else none
    | _ => none).head?

/-- The `replace(/^"|"$/g, '')` edge-quote strip. -/
def stripEdgeQuotes (s : Str) : Str :=
  let s1 := match s with | '\x22' :: r => r | _ => s
  match s1.reverse with | '\x22' :: r => r.reverse | _ => s1

/-- One data row of the suggestions-route `parseCsv`: quoted pattern first,
then the plain pattern; rows matching neither (or with an empty field) are
dropped. -/
def parseRow (l : Str) : Option CsvRow :=
  match quotedMatch l with
  | some (t0, l0) =>
    let t := jsTrim t0
    let lk := jsTrim l0
    if t ≠ [] ∧ lk ≠ [] then some ⟨t, lk⟩ else none
  | none =>
    match plainSplit l with
    | some (t0, l0) =>
      let t := jsTrim (stripEdgeQuotes t0)
      let lk := jsTrim l0
      if t ≠ [] ∧ lk ≠ [] then some ⟨t, lk⟩ else none
    | none => none

/-- `parseCsv` from the suggestions route. -/
def parseCsv (text : Str) : List CsvRow :=
  let lines := (splitJsLines text).filter fun l => 0 < (jsTrim l).length
  match lines with
  | [] => []
  | l0 :: rest =>
    let body := if hasTitleLinkHeader l0 then rest else l0 :: rest
    body.filterMap parseRow

end Sugg

/-- Counterexample to C2 as stated: the chat route's CSV parser naively
splits the quoted row on commas and mis-parses it (the row is neither parsed
to the quoted title nor dropped). -/
theorem C2_quoted_csv_counterexample :
    ChatRoute.parseCsv (strOf "title,link\n\x22A, B\x22,https://x.test/1") =
      [⟨strOf "\x22A", strOf "B\x22"⟩] ∧
    ChatRoute.parseCsv (strOf "title,link\n\x22A, B\x22,https://x.test/1") ≠
      [⟨strOf "A, B", strOf "https://x.test/1"⟩] := by
  constructor
  · decide
  · decide

/-- Claim C2 as amended: the suggestions-route CSV parser tries the dedicated
quoted-title pattern before the naive comma split, parsing the quoted row to
title `A, B` and its URL, and a data row matching neither pattern is dropped;
the chat route's own parser instead splits naively on commas and mis-parses
quoted titles. -/
theorem C2_quoted_csv_amended (l : Str)
    (hq : Sugg.quotedMatch l = none) (hp : Sugg.plainSplit l = none) :
    Sugg.parseCsv (strOf "Title,Link\n\x22A, B\x22,https://x.test/1") =
      [⟨strOf "A, B", strOf "https://x.test/1"⟩] ∧
    Sugg.parseRow l = none := by
  refine ⟨by decide, ?_⟩
  simp [Sugg.parseRow, hq, hp]

/-- Witness for C2 (amended) at a concrete patternless row. -/
theorem C2_quoted_csv_amended_witness :
    Sugg.parseCsv (strOf "Title,Link\n\x22A, B\x22,https://x.test/1") =
      [⟨strOf "A, B", strOf "https://x.test/1"⟩] ∧
    Sugg.parseRow (strOf "no url in this row") = none :=
  C2_quoted_csv_amended (strOf "no url in this row") (by decide) (by decide)

/-! ## Ranking (the selection block of `POST` in route.ts, lines 236-247) -/

def isLowerAlnum (c : Char) : Bool :=
  ('a' ≤ c && c ≤ 'z') || ('0' ≤ c && c ≤ '9')

/-- Maximal runs of characters satisfying `p`; the empty pieces a
`split`/`filter(Boolean)` pair would discard never appear. -/
def runsOf (p : Char → Bool) : Str → List Str
  | [] => []
  | c :: rest =>
    let r := runsOf p rest
    if p c then
      match rest with
      | d :: _ =>
        if p d then
          match r with
          | h :: t => (c :: h) :: t
          | [] => [[c]]
        else [c] :: r
      | [] => [[c]]
    else r

/-- `englishQuery.toLowerCase().split(/[^a-z0-9]+/).filter(Boolean)`. -/
def queryTokens (q : Str) : List Str := runsOf isLowerAlnum (q.map jsLower)

/-- JavaScript `String.prototype.includes`. -/
def isSubstrOf (needle hay : Str) : Bool :=
  (List.range (hay.length + 1)).any fun i => isPref needle (hay.drop i)

/-- `tokens.reduce((acc, t) => acc + (at.includes(t) ? 1 : 0), 0)` against
the lowercased title. -/
def articleScore (tokens : List Str) (a : Article) : Nat :=
  tokens.countP fun t => isSubstrOf t (a.title.map jsLower)

structure ScoredA where
  article : Article
  score : Nat
deriving DecidableEq

/-- Insertion step of a stable descending sort by a numeric key: the new
element goes before the first entry whose key is not larger.  Built by
`foldr`, this reproduces the stable `Array.prototype.sort` with the
comparator `(a, b) => b.score - a.score`. -/
def insertDescBy {α : Type} (key : α → Nat) (x : α) : List α → List α
  | [] => [x]
  | y :: ys => if key y ≤ key x then x :: y :: ys else y :: insertDescBy key x ys

def sortDescBy {α : Type} (key : α → Nat) (l : List α) : List α :=
  l.foldr (insertDescBy key) []

/-- The positively scored articles, in corpus order
(`.map(score).filter(s => s.score > 0)`). -/
def positives (q : Str) (articles : List Article) : List ScoredA :=
  (articles.map fun a => ScoredA.mk a (articleScore (queryTokens q) a)).filter
    fun s => 0 < s.score

/-- The selection block: score titles against the query tokens, keep the
positive scorers (falling back to everything at score zero), sort
descending, take the top `k`, return the articles. -/
def rank (q : Str) (articles : List Article) (k : Nat) : List Article :=
  ((sortDescBy (fun s => s.score)
      (if (positives q articles).isEmpty then articles.map fun a => ScoredA.mk a 0
       else positives q articles)).take k).map fun s => s.article

theorem mem_insertDescBy {α : Type} (key : α → Nat) (x z : α) (l : List α) :
    z ∈ insertDescBy key x l ↔ z = x ∨ z ∈ l := by
  induction l with
  | nil => simp [insertDescBy]
  | cons y ys ih =>
    rw [insertDescBy]
    by_cases h : key y ≤ key x
    · simp [h]
    · simp only [if_neg h, List.mem_cons, ih]
      tauto

theorem mem_sortDescBy {α : Type} (key : α → Nat) (z : α) (l : List α) :
    z ∈ sortDescBy key l ↔ z ∈ l := by
  induction l with
  | nil => simp [sortDescBy]
  | cons x xs ih =>
    show z ∈ insertDescBy key x (sortDescBy key xs) ↔ _
    rw [mem_insertDescBy, ih]
    simp

theorem length_insertDescBy {α : Type} (key : α → Nat) (x : α) (l : List α) :
    (insertDescBy key x l).length = l.length + 1 := by
  induction l with
  | nil => rfl
  | cons y ys ih =>
    rw [insertDescBy]
    by_cases h : key y ≤ key x
    · simp [h]
    · simp [h, ih]

theorem length_sortDescBy {α : Type} (key : α → Nat) (l : List α) :
    (sortDescBy key l).length = l.length := by
  induction l with
  | nil => rfl
  | cons x xs ih =>
    show (insertDescBy key x (sortDescBy key xs)).length = _
    rw [length_insertDescBy, ih]
    rfl

theorem sorted_insertDescBy {α : Type} (key : α → Nat) (x : α) (l : List α)
    (hl : l.Pairwise fun a b => key b ≤ key a) :
    (insertDescBy key x l).Pairwise fun a b => key b ≤ key a := by
  induction l with
  | nil => simp [insertDescBy]
  | cons y ys ih =>
    rw [insertDescBy]
    rcases List.pairwise_cons.mp hl with ⟨hy, hys⟩
    by_cases h : key y ≤ key x
    · rw [if_pos h]
      refine List.pairwise_cons.mpr ⟨?_, hl⟩
      intro z hz
      rcases List.mem_cons.mp hz with hz | hz
      · exact hz ▸ h
      · exact le_trans (hy z hz) h
    · rw [if_neg h]
      refine List.pairwise_cons.mpr ⟨?_, ih hys⟩
      intro z hz
      rcases (mem_insertDescBy key x z ys).mp hz with hz | hz
      · exact hz ▸ le_of_lt (lt_of_not_le h)
      · exact hy z hz

theorem sorted_sortDescBy {α : Type} (key : α → Nat) (l : List α) :
    (sortDescBy key l).Pairwise fun a b => key b ≤ key a := by
  induction l with
  | nil => simp [sortDescBy]
  | cons x xs ih => exact sorted_insertDescBy key x _ ih

theorem filter_insertDescBy {α : Type} (key : α → Nat) (s : Nat) (x : α)
    (l : List α) (hl : l.Pairwise fun a b => key b ≤ key a) :
    (insertDescBy key x l).filter (fun y => decide (key y = s)) =
      if key x = s then x :: l.filter (fun y => decide (key y = s))
      else l.filter (fun y => decide (key y = s)) := by
  induction l with
  | nil => by_cases h : key x = s <;> simp [insertDescBy, h]
  | cons y ys ih =>
    rw [insertDescBy]
    rcases List.pairwise_cons.mp hl with ⟨hy, hys⟩
    by_cases hcmp : key y ≤ key x
    · rw [if_pos hcmp]
      by_cases h : key x = s <;> simp [h, List.filter_cons]
    · rw [if_neg hcmp]
      have hx : key x < key y := lt_of_not_le hcmp
      by_cases h : key x = s
      · have hyne : ¬(key y = s) := by omega
        rw [if_pos h]
        simp only [List.filter_cons, decide_eq_true_eq, hyne, if_false]
        rw [ih hys, if_pos h]
      · rw [if_neg h]
        simp only [List.filter_cons]
        rw [ih hys, if_neg h]

theorem filter_sortDescBy {α : Type} (key : α → Nat) (s : Nat) (l : List α) :
    (sortDescBy key l).filter (fun y => decide (key y = s)) =
      l.filter (fun y => decide (key y = s)) := by
  induction l with
  | nil => rfl
  | cons x xs ih =>
    show (insertDescBy key x (sortDescBy key xs)).filter _ = _
    rw [filter_insertDescBy key s x _ (sorted_sortDescBy key xs)]
    by_cases h : key x = s <;> simp [h, List.filter_cons, ih]

theorem sortDescBy_const {α : Type} (key : α → Nat) (l : List α)
    (hconst : ∀ x ∈ l, key x = 0) : sortDescBy key l = l := by
  induction l with
  | nil => rfl
  | cons x xs ih =>
    show insertDescBy key x (sortDescBy key xs) = _
    rw [ih fun z hz => hconst z (List.mem_cons_of_mem x hz)]
    cases xs with
    | nil => rfl
    | cons y ys =>
      rw [insertDescBy]
      rw [if_pos ?_]
      rw [hconst x (List.mem_cons_self x _), hconst y (by simp)]

/-- Counterexample to C3 as stated: with corpus
`["alpha", "beta", "gamma"]`, query `"alpha"` and `k = 2`, only the single
positively-scored article is returned, so the result has length 1, not
`min(k, corpus size) = 2`. -/
theorem C3_rank_counterexample :
    rank (strOf "alpha")
        [⟨strOf "alpha", strOf "l1"⟩, ⟨strOf "beta", strOf "l2"⟩,
         ⟨strOf "gamma", strOf "l3"⟩] 2 =
      [⟨strOf "alpha", strOf "l1"⟩] ∧
    (rank (strOf "alpha")
        [⟨strOf "alpha", strOf "l1"⟩, ⟨strOf "beta", strOf "l2"⟩,
         ⟨strOf "gamma", strOf "l3"⟩] 2).length ≠ min 2 3 := by
  exact ⟨by decide, by decide⟩

theorem positives_score (q : Str) (articles : List Article) (x : ScoredA)
    (hx : x ∈ positives q articles) :
    x.score = articleScore (queryTokens q) x.article := by
  have hx2 : x ∈ articles.map fun a => ScoredA.mk a (articleScore (queryTokens q) a) :=
    List.mem_of_mem_filter hx
  rcases List.mem_map.mp hx2 with ⟨a, ha, rfl⟩
  rfl

theorem positives_eq_nil_iff (q : Str) (articles : List Article) :
    positives q articles = [] ↔
      ∀ a ∈ articles, articleScore (queryTokens q) a = 0 := by
  rw [positives, List.filter_eq_nil_iff]
  constructor
  · intro h a ha
    have := h (ScoredA.mk a (articleScore (queryTokens q) a))
      (List.mem_map.mpr ⟨a, ha, rfl⟩)
    simpa using this
  · intro h x hx
    rcases List.mem_map.mp hx with ⟨a, ha, rfl⟩
    simpa using h a ha

theorem map_article_mk (g : Article → Nat) (l : List Article) :
    (l.map fun a => ScoredA.mk a (g a)).map (fun x : ScoredA => x.article) = l := by
  induction l with
  | nil => rfl
  | cons a as ih => simp only [List.map_cons, ih]

theorem rank_fallback (q : Str) (articles : List Article) (k : Nat)
    (h : positives q articles = []) : rank q articles k = articles.take k := by
  rw [rank, h]
  simp only [List.isEmpty_nil, if_true]
  rw [sortDescBy_const _ _ (by
    intro x hx
    rcases List.mem_map.mp hx with ⟨a, ha, rfl⟩
    rfl)]
  rw [← List.map_take, map_article_mk]

/-- Claim C3 as amended: the selection block tokenizes the lowercased query
into ASCII-alphanumeric runs and scores each article by the number of tokens
occurring in its lowercased title, but it keeps only the positively-scored
articles when any exist: it then returns the top `min(k, number of positive
scorers)` of those, in descending score with ties in corpus order; only when
no article scores above zero does it return the first `min(k, corpus size)`
articles in corpus order — so the result can be shorter than
`min(k, corpus size)` when some but few articles match. -/
theorem C3_rank_amended (q : Str) (articles : List Article) (k : Nat) :
    ((∀ a ∈ articles, articleScore (queryTokens q) a = 0) →
      rank q articles k = articles.take k) ∧
    (rank q articles k).length =
      min k (if (positives q articles).isEmpty then articles.length
             else (positives q articles).length) ∧
    (rank q articles k).Pairwise
      (fun a b => articleScore (queryTokens q) b ≤ articleScore (queryTokens q) a) ∧
    (∀ s : Nat, 0 < s →
      (rank q articles k).filter
          (fun a => decide (articleScore (queryTokens q) a = s)) <+:
        articles.filter (fun a => decide (articleScore (queryTokens q) a = s))) := by
  refine ⟨?_, ?_, ?_, ?_⟩
  · intro h0
    exact rank_fallback q articles k ((positives_eq_nil_iff q articles).mpr h0)
  · rw [rank]
    by_cases hpos : (positives q articles).isEmpty
    · simp [hpos, List.length_take, length_sortDescBy]
    · simp [hpos, List.length_take, length_sortDescBy]
  · by_cases hpos : (positives q articles).isEmpty
    · have hnil := List.isEmpty_iff.mp hpos
      rw [rank_fallback q articles k hnil]
      have h0 := (positives_eq_nil_iff q articles).mp hnil
      have hz : ∀ a ∈ articles.take k, articleScore (queryTokens q) a = 0 :=
        fun a ha => h0 a (List.mem_of_mem_take ha)
      have hall : ∀ (l : List Article), (∀ a ∈ l, articleScore (queryTokens q) a = 0) →
          l.Pairwise
            (fun a b => articleScore (queryTokens q) b ≤ articleScore (queryTokens q) a) := by
        intro l
        induction l with
        | nil => intro h1; exact List.Pairwise.nil
        | cons a as ih =>
          intro h1
          refine List.pairwise_cons.mpr
            ⟨?_, ih fun x hx => h1 x (List.mem_cons_of_mem a hx)⟩
          intro b hb
          rw [h1 a (List.mem_cons_self a as), h1 b (List.mem_cons_of_mem a hb)]
      exact hall _ hz
    · rw [rank]
      simp only [hpos, if_false]
      rw [List.pairwise_map]
      have hsorted :
          ((sortDescBy (fun s : ScoredA => s.score) (positives q articles)).take k).Pairwise
            (fun a b => b.score ≤ a.score) :=
        List.Pairwise.take (sorted_sortDescBy (fun s : ScoredA => s.score)
          (positives q articles))
      refine List.Pairwise.imp_of_mem ?_ hsorted
      intro x y hx hy hr
      have hx2 : x ∈ positives q articles :=
        (mem_sortDescBy _ x _).mp (List.mem_of_mem_take hx)
      have hy2 : y ∈ positives q articles :=
        (mem_sortDescBy _ y _).mp (List.mem_of_mem_take hy)
      rw [← positives_score q articles x hx2, ← positives_score q articles y hy2]
      exact hr
  · intro s hs
    by_cases hpos : (positives q articles).isEmpty
    · rw [rank_fallback q articles k (List.isEmpty_iff.mp hpos)]
      exact List.IsPrefix.filter _ (List.take_prefix k articles)
    · rw [rank]
      simp only [hpos, if_false]
      have step2 :
          ((sortDescBy (fun s : ScoredA => s.score) (positives q articles)).take k).filter
              ((fun a => decide (articleScore (queryTokens q) a = s)) ∘
                (fun x : ScoredA => x.article)) =
          ((sortDescBy (fun s : ScoredA => s.score) (positives q articles)).take k).filter
              (fun x : ScoredA => decide (x.score = s)) := by
        refine List.filter_congr ?_
        intro x hx
        have hx2 : x ∈ positives q articles :=
          (mem_sortDescBy _ x _).mp (List.mem_of_mem_take hx)
        simp only [Function.comp]
        rw [← positives_score q articles x hx2]
      have step3 :
          ((sortDescBy (fun s : ScoredA => s.score) (positives q articles)).take k).filter
              (fun x : ScoredA => decide (x.score = s)) <+:
          (sortDescBy (fun s : ScoredA => s.score) (positives q articles)).filter
              (fun x : ScoredA => decide (x.score = s)) :=
        List.IsPrefix.filter _ (List.take_prefix _ _)
      have step4 :
          (sortDescBy (fun s : ScoredA => s.score) (positives q articles)).filter
              (fun x : ScoredA => decide (x.score = s)) =
          (positives q articles).filter (fun x : ScoredA => decide (x.score = s)) :=
        filter_sortDescBy _ s _
      have step5 :
          (positives q articles).filter (fun x : ScoredA => decide (x.score = s)) =
          (articles.map fun a => ScoredA.mk a (articleScore (queryTokens q) a)).filter
              (fun x : ScoredA => decide (x.score = s)) := by
        rw [positives, List.filter_filter]
        refine List.filter_congr ?_
        intro x hx
        by_cases hxs : x.score = s
        · simp [hxs, hs]
        · simp [hxs]
      have step6 :
          (articles.map fun a => ScoredA.mk a (articleScore (queryTokens q) a)).filter
              (fun x : ScoredA => decide (x.score = s)) =
          (articles.filter fun a => decide (articleScore (queryTokens q) a = s)).map
              (fun a => ScoredA.mk a (articleScore (queryTokens q) a)) := by
        rw [List.filter_map]
        refine congrArg (List.map fun a => ScoredA.mk a (articleScore (queryTokens q) a))
          (List.filter_congr ?_)
        intro x hx
        rfl
      calc List.filter (fun a => decide (articleScore (queryTokens q) a = s))
              (((sortDescBy (fun s : ScoredA => s.score) (positives q articles)).take k).map
                (fun s : ScoredA => s.article))
          = (((sortDescBy (fun s : ScoredA => s.score) (positives q articles)).take k).filter
              ((fun a => decide (articleScore (queryTokens q) a = s)) ∘
                (fun x : ScoredA => x.article))).map (fun x : ScoredA => x.article) := by
            rw [List.filter_map]
        _ <+: ((positives q articles).filter
                (fun x : ScoredA => decide (x.score = s))).map
                  (fun x : ScoredA => x.article) := by
            rw [step2]
            exact List.IsPrefix.map _ (step4 ▸ step3)
        _ = articles.filter (fun a => decide (articleScore (queryTokens q) a = s)) := by
            rw [step5, step6, map_article_mk]

/-- Witness for C3 (amended): on the corpus of the counterexample the result
of the no-overlap query is the first `min(k, corpus size)` articles. -/
theorem C3_rank_amended_witness :
    rank (strOf "unrelated query")
        [⟨strOf "alpha", strOf "l1"⟩, ⟨strOf "beta", strOf "l2"⟩,
         ⟨strOf "gamma", strOf "l3"⟩] 2 =
      [⟨strOf "alpha", strOf "l1"⟩, ⟨strOf "beta", strOf "l2"⟩] := by
  rw [(C3_rank_amended (strOf "unrelated query")
      [⟨strOf "alpha", strOf "l1"⟩, ⟨strOf "beta", strOf "l2"⟩,
       ⟨strOf "gamma", strOf "l3"⟩] 2).1 (by decide)]
  decide

/-! ## Fusion image resolution (the section-resolution block of `POST`,
route.ts lines 306-324) -/

structure DocImage where
  idx : Nat
  src : Str
  alt : Str
deriving DecidableEq

structure DocForPrompt where
  idx : Nat
  title : Str
  url : Str
  text : Str
  images : List DocImage
deriving DecidableEq

structure FusionImageRef where
  doc : Nat
  img : Nat
  caption : Option Str
  citeIndex : Option Nat
deriving DecidableEq

structure FusionSectionIn where
  heading : Option Str
  textMarkdown : Option Str
  imageRefs : Option (List FusionImageRef)
deriving DecidableEq

structure ResolvedImage where
  src : Str
  alt : Str
  caption : Str
  citeIndex : Nat
deriving DecidableEq

structure ResolvedSection where
  heading : Str
  markdown : Str
  images : List ResolvedImage
deriving DecidableEq

/-- The character class `[a-z0-9éèêàùçäëïöüâôî]` of the local `tok`
helper (the accented letters by code point). -/
def isFusionTokChar (c : Char) : Bool :=
  isLowerAlnum c ||
  [233, 232, 234, 224, 249, 231, 228, 235, 239, 246, 252, 226, 244, 238].contains c.toNat

/-- The local `tok` helper: lowercase, then split into runs of the class. -/
def fusionTok (s : Str) : List Str := runsOf isFusionTokChar (s.map jsLower)

/-- Count of shared tokens between the two `Set`s. -/
def overlapCount (secTokens imgTokens : List Str) : Nat :=
  (imgTokens.dedup.filter fun t => decide (t ∈ secTokens)).length

/-- Tokens of the section markdown plus the translated query. -/
def secTokensOf (englishQuery : Str) (sec : FusionSectionIn) : List Str :=
  fusionTok (sec.textMarkdown.getD [] ++ [' '] ++ englishQuery)

/-- Resolve one image reference by `{doc, img}` lookup and score it; a
reference to a nonexistent document or image yields `none`. -/
def resolveRef (docs : List DocForPrompt) (secTokens : List Str)
    (ref : FusionImageRef) : Option (Nat × ResolvedImage) :=
  match docs.find? fun d => d.idx == ref.doc with
  | none => none
  | some d =>
    match d.images.find? fun i => i.idx == ref.img with
    | none => none
    | some im =>
      some (overlapCount secTokens
              (fusionTok (im.alt ++ [' '] ++ ref.caption.getD [] ++ [' '] ++ d.title)),
        ⟨im.src, im.alt, ref.caption.getD [],
         match ref.citeIndex with
         | some n => if n = 0 then ref.doc else n
         | none => ref.doc⟩)

/-- The `withScores` list of one section: every resolvable reference with
its overlap score, in reference order. -/
def sectionScores (docs : List DocForPrompt) (englishQuery : Str)
    (sec : FusionSectionIn) : List (Nat × ResolvedImage) :=
  (sec.imageRefs.getD []).filterMap (resolveRef docs (secTokensOf englishQuery sec))

/-- The proxy rewrite applied to each kept image. -/
def proxImg (f : Nat × ResolvedImage) : ResolvedImage :=
  { f.2 with src := proxyUrl f.2.src }

/-- Resolve one fusion section: keep the positive-overlap images, stable
descending by overlap, at most 3; when no resolved image has positive
overlap but some reference resolved, keep exactly the first resolved one. -/
def resolveSection (docs : List DocForPrompt) (englishQuery : Str)
    (sec : FusionSectionIn) : ResolvedSection :=
  ⟨sec.heading.getD [], sec.textMarkdown.getD [],
   (if ((sortDescBy (fun x : Nat × ResolvedImage => x.1)
           ((sectionScores docs englishQuery sec).filter fun x => 0 < x.1)).take 3).isEmpty ∧
       ¬(sectionScores docs englishQuery sec).isEmpty
    then (sectionScores docs englishQuery sec).take 1
    else (sortDescBy (fun x : Nat × ResolvedImage => x.1)
           ((sectionScores docs englishQuery sec).filter fun x => 0 < x.1)).take 3).map
      proxImg⟩

def resolveSections (docs : List DocForPrompt) (englishQuery : Str)
    (secs : List FusionSectionIn) : List ResolvedSection :=
  secs.map (resolveSection docs englishQuery)

theorem filterMap_filter_isSome {α β : Type} (g : α → Option β) (l : List α) :
    (l.filter fun a => (g a).isSome).filterMap g = l.filterMap g := by
  induction l with
  | nil => rfl
  | cons a as ih =>
    cases hg : g a with
    | none =>
      rw [List.filter_cons_of_neg (by simp [hg])]
      rw [List.filterMap_cons_none hg, ih]
    | some b =>
      rw [List.filter_cons_of_pos (by simp [hg])]
      rw [List.filterMap_cons_some hg, List.filterMap_cons_some hg, ih]

theorem sectionScores_provenance (docs : List DocForPrompt) (q : Str)
    (sec : FusionSectionIn) (f : Nat × ResolvedImage)
    (hf : f ∈ sectionScores docs q sec) :
    ∃ d ∈ docs, ∃ im ∈ d.images, f.2.src = im.src ∧ f.2.alt = im.alt := by
  rcases List.mem_filterMap.mp hf with ⟨ref, href, hres⟩
  unfold resolveRef at hres
  cases hd : docs.find? fun d => d.idx == ref.doc with
  | none => rw [hd] at hres; simp at hres
  | some d =>
    rw [hd] at hres
    dsimp only at hres
    cases him : d.images.find? fun i => i.idx == ref.img with
    | none => rw [him] at hres; simp at hres
    | some im =>
      rw [him] at hres
      dsimp only at hres
      simp only [Option.some_inj] at hres
      refine ⟨d, List.mem_of_find?_eq_some hd, im, List.mem_of_find?_eq_some him, ?_, ?_⟩
      · rw [← hres]
      · rw [← hres]

/-- Claim C7: for every fusion response section, image references are
resolved by `{doc, img}` lookup against the supplied documents; dangling
references are silently dropped (removing them changes nothing); among the
resolved images those with positive overlap are kept, at most 3, in
descending overlap order, and when every resolved image has zero overlap
exactly the first one is kept — so each resolved section carries between 0
and 3 images, each originating from the supplied document set. -/
theorem C7_fusion_image_resolution (docs : List DocForPrompt) (q : Str)
    (secs : List FusionSectionIn) (sec : FusionSectionIn) (hsec : sec ∈ secs) :
    resolveSection docs q sec ∈ resolveSections docs q secs ∧
    (resolveSection docs q sec).images.length ≤ 3 ∧
    (∀ img ∈ (resolveSection docs q sec).images,
      ∃ d ∈ docs, ∃ im ∈ d.images, img.src = proxyUrl im.src ∧ img.alt = im.alt) ∧
    (∀ refs, sec.imageRefs = some refs →
      resolveSection docs q
        { sec with imageRefs := some (refs.filter fun r =>
            (resolveRef docs (secTokensOf q sec) r).isSome) } =
        resolveSection docs q sec) ∧
    ((∀ x ∈ sectionScores docs q sec, x.1 = 0) → sectionScores docs q sec ≠ [] →
      (resolveSection docs q sec).images =
        ((sectionScores docs q sec).take 1).map proxImg) ∧
    ((∃ x ∈ sectionScores docs q sec, 0 < x.1) →
      (resolveSection docs q sec).images =
        ((sortDescBy (fun x : Nat × ResolvedImage => x.1)
           ((sectionScores docs q sec).filter fun x => 0 < x.1)).take 3).map proxImg ∧
      (sortDescBy (fun x : Nat × ResolvedImage => x.1)
         ((sectionScores docs q sec).filter fun x => 0 < x.1)).Pairwise
        (fun a b => b.1 ≤ a.1)) := by
  refine ⟨List.mem_map.mpr ⟨sec, hsec, rfl⟩, ?_, ?_, ?_, ?_, ?_⟩
  · rw [resolveSection]
    simp only [List.length_map]
    split
    · calc ((sectionScores docs q sec).take 1).length ≤ 1 := List.length_take_le _ _
      _ ≤ 3 := by omega
    · exact List.length_take_le _ _
  · intro img himg
    rw [resolveSection] at himg
    simp only at himg
    rcases List.mem_map.mp himg with ⟨f, hf, rfl⟩
    have hfws : f ∈ sectionScores docs q sec := by
      split at hf
      · exact List.mem_of_mem_take hf
      · exact List.mem_of_mem_filter
          ((mem_sortDescBy _ _ _).mp (List.mem_of_mem_take hf))
    rcases sectionScores_provenance docs q sec f hfws with ⟨d, hd, im, him, hsrc, halt⟩
    exact ⟨d, hd, im, him, by rw [proxImg, hsrc], by rw [proxImg, halt]⟩
  · intro refs hrefs
    rw [resolveSection, resolveSection]
    have hsame : sectionScores docs q
        { sec with imageRefs := some (refs.filter fun r =>
            (resolveRef docs (secTokensOf q sec) r).isSome) } =
        sectionScores docs q sec := by
      rw [sectionScores, sectionScores, hrefs]
      have htok : secTokensOf q { sec with imageRefs := some (refs.filter fun r =>
          (resolveRef docs (secTokensOf q sec) r).isSome) } = secTokensOf q sec := rfl
      rw [htok]
      exact filterMap_filter_isSome _ refs
    rw [hsame]
  · intro hzero hne
    rw [resolveSection]
    simp only
    have hfilter : (sectionScores docs q sec).filter (fun x => decide (0 < x.1)) = [] := by
      rw [List.filter_eq_nil_iff]
      intro x hx
      simp [hzero x hx]
    rw [hfilter]
    rw [if_pos ⟨by rw [sortDescBy]; rfl, by simpa [List.isEmpty_iff] using hne⟩]
  · intro hpositive
    rcases hpositive with ⟨x, hx, hx1⟩
    have hmem : x ∈ (sectionScores docs q sec).filter (fun x => decide (0 < x.1)) :=
      List.mem_filter.mpr ⟨hx, by simpa using hx1⟩
    have hlen : 0 < ((sectionScores docs q sec).filter
        (fun x => decide (0 < x.1))).length := List.length_pos_of_mem hmem
    have hnotempty : ¬((sortDescBy (fun x : Nat × ResolvedImage => x.1)
        ((sectionScores docs q sec).filter fun x => 0 < x.1)).take 3).isEmpty = true := by
      rw [List.isEmpty_iff, ← List.length_eq_zero]
      rw [List.length_take, length_sortDescBy]
      omega
    constructor
    · rw [resolveSection]
      simp only
      rw [if_neg fun hcon => hnotempty hcon.1]
    · exact sorted_sortDescBy _ _

/-- Witness for C7: two supplied documents, one section whose references
include the dangling `{doc: 5, img: 2}`; the dangling reference is silently
omitted while the section still resolves with at most 3 images. -/
theorem C7_fusion_image_resolution_witness :
    (resolveSection
        [⟨1, strOf "bone loss", strOf "u1", strOf "t", [⟨0, strOf "img0", strOf "bone"⟩]⟩,
         ⟨2, strOf "muscle", strOf "u2", strOf "t", [⟨0, strOf "img1", strOf "muscle"⟩]⟩]
        (strOf "bone loss")
        ⟨some (strOf "Intro"), some (strOf "bone density"),
         some [⟨5, 2, none, none⟩, ⟨1, 0, none, none⟩]⟩).images.length ≤ 3 := by
  exact (C7_fusion_image_resolution _ _
    [⟨some (strOf "Intro"), some (strOf "bone density"),
      some [⟨5, 2, none, none⟩, ⟨1, 0, none, none⟩]⟩] _
    (List.mem_singleton.mpr rfl)).2.1

/-! ## Request routing (`POST` in route.ts, `GET` in the suggestions route) -/

namespace ChatRoute

/-- The response shapes of the chat `POST` handler (its `mode` field, or the
error payloads). -/
inductive RespMode where
  | errMissingKey
  | errNoMessages
  | chitchat
  | capabilities
  | fusedJson
  | scraped
  | articlesOnly
  | articlesSummary
  | errSummaryUpstream
  | chatReply
  | errUpstream
deriving DecidableEq

/-- Responses that carry an `error` payload and a non-2xx status. -/
def isErrorMode : RespMode → Bool
  | .errMissingKey => true
  | .errNoMessages => true
  | .errSummaryUpstream => true
  | .errUpstream => true
  | _ => false

/-- The request-level state the `POST` handler branches on: intent flags
computed by `isGreeting` / `isCapabilityAsk` / `isSpaceBiologyQuery`, the
articles returned by `getArticles`, and the outcomes of the awaited
downstream calls. -/
structure PostEnv where
  hasApiKey : Bool
  hasMessages : Bool
  greet : Bool
  capability : Bool
  spaceBio : Bool
  wantsSummary : Bool
  articles : List Article
  fusionConfigured : Bool
  fusionUpstreamOk : Bool
  fusionResolvedNonempty : Bool
  htmlSectionsNonempty : Bool
  builtFallbackNonempty : Bool
  summaryUpstreamOk : Bool
  chatUpstreamOk : Bool

/-- The branch structure of the `POST` handler: early key/body errors, the
intent routing, the domain-query block with its fusion → structured-HTML →
built-HTML → article-list ladder, the summary branch, and the final generic
chat completion. -/
def postModel (e : PostEnv) : RespMode :=
  if ¬e.hasApiKey then .errMissingKey
  else if ¬e.hasMessages then .errNoMessages
  else if e.greet ∧ ¬e.spaceBio ∧ ¬e.capability then .chitchat
  else if e.capability then .capabilities
  else if e.spaceBio ∧ e.articles ≠ [] ∧ ¬e.wantsSummary then
    (if e.fusionConfigured ∧ e.fusionUpstreamOk ∧ e.fusionResolvedNonempty then .fusedJson
     else if e.htmlSectionsNonempty then .scraped
     else if e.builtFallbackNonempty then .scraped
     else .articlesOnly)
  else if e.spaceBio ∧ e.articles ≠ [] ∧ e.wantsSummary then
    (if e.summaryUpstreamOk then .articlesSummary else .errSummaryUpstream)
  else if e.chatUpstreamOk then .chatReply
  else .errUpstream

end ChatRoute

namespace Sugg

/-- The two outcomes of the suggestions `GET` handler: the explicit
no-article-index error (HTTP 502, `CSV introuvable ou vide`) or a success
with the random picks. -/
inductive SuggResp where
  | noIndex
  | ok (picks : List CsvRow)
deriving DecidableEq

/-- The `GET` handler: remote CSV rows, then the local snapshot, then the
explicit error when both are empty; `pick` abstracts the `pickRandom`
shuffle. -/
def suggestionsGet (github localRows : List CsvRow)
    (pick : List CsvRow → List CsvRow) : SuggResp :=
  if (if github ≠ [] then github else localRows) = [] then .noIndex
  else .ok (pick (if github ≠ [] then github else localRows))

end Sugg

/-- Counterexample to C1 as stated: on the chat route's domain-query path a
zero-article CSV load does NOT surface an error — the request falls through
to the generic chat completion and returns a normal success. -/
theorem C1_no_articles_counterexample :
    ChatRoute.postModel
        ⟨true, true, false, false, true, false, [], true, true, true,
         true, true, true, true⟩ =
      ChatRoute.RespMode.chatReply ∧
    ChatRoute.isErrorMode ChatRoute.RespMode.chatReply = false := by
  exact ⟨by decide, by decide⟩

/-- Claim C1 as amended: only the suggestions endpoint surfaces the explicit
no-article-index error: its `GET` returns the `CSV introuvable ou vide`
error exactly when both the remote CSV and the local snapshot yield no rows;
the chat route's domain-query path with an empty article index instead falls
through to the generic chat completion (or its upstream error), a normal
non-error success when the upstream call succeeds. -/
theorem C1_no_articles_amended (github localRows : List Sugg.CsvRow)
    (pick : List Sugg.CsvRow → List Sugg.CsvRow) (e : ChatRoute.PostEnv)
    (hg : github = []) (hl : localRows = [])
    (hkey : e.hasApiKey = true) (hmsg : e.hasMessages = true)
    (hsb : e.spaceBio = true) (hcap : e.capability = false)
    (hart : e.articles = []) :
    Sugg.suggestionsGet github localRows pick = Sugg.SuggResp.noIndex ∧
    ChatRoute.postModel e =
      (if e.chatUpstreamOk then ChatRoute.RespMode.chatReply
       else ChatRoute.RespMode.errUpstream) ∧
    ChatRoute.isErrorMode ChatRoute.RespMode.chatReply = false := by
  refine ⟨?_, ?_, rfl⟩
  · rw [Sugg.suggestionsGet, hg, hl]
    simp
  · rw [ChatRoute.postModel, hkey, hmsg, hsb, hcap, hart]
    simp

/-- Witness for C1 (amended): empty remote and local CSV rows yield the
explicit no-index error, while the chat route's domain query with an empty
index yields the generic chat reply. -/
theorem C1_no_articles_amended_witness :
    Sugg.suggestionsGet [] [] (fun rows => rows.take 3) = Sugg.SuggResp.noIndex ∧
    ChatRoute.postModel
        ⟨true, true, false, false, true, false, [], false, false, false,
         false, false, false, true⟩ =
      (if true then ChatRoute.RespMode.chatReply else ChatRoute.RespMode.errUpstream) := by
  have h := C1_no_articles_amended [] [] (fun rows => rows.take 3)
    ⟨true, true, false, false, true, false, [], false, false, false,
     false, false, false, true⟩ rfl rfl rfl rfl rfl rfl rfl
  exact ⟨h.1, h.2.1⟩

/-! ## Fusion JSON parsing (`extractJsonCandidate`,
`normalizeBackslashesForJson`, and the parse / repair / retry in `POST`) -/

inductive Json where
  | null
  | bool (b : Bool)
  | num (raw : Str)
  | str (s : Str)
  | arr (xs : List Json)
  | obj (kvs : List (Str × Json))

/-- The whitespace accepted by `JSON.parse` between tokens. -/
def jsonWsChar (c : Char) : Bool := c == ' ' || c == '\t' || c == '\n' || c == '\r'

def skipJWs (s : Str) : Str := s.dropWhile jsonWsChar

def hexVal (c : Char) : Option Nat :=
  if '0' ≤ c ∧ c ≤ '9' then some (c.toNat - 48)
  else if 'a' ≤ c ∧ c ≤ 'f' then some (c.toNat - 87)
  else if 'A' ≤ c ∧ c ≤ 'F' then some (c.toNat - 55)
  else none

/-- A JSON string body after its opening quote: content plus what follows
the closing quote.  Escapes are exactly `" \ / b f n r t` and `u` with four
hex digits; raw control characters are rejected. -/
def parseJString : Str → Option (Str × Str)
  | [] => none
  | c :: rest =>
    if c = '\x22' then some ([], rest)
    else if c = '\\' then
      match rest with
      | [] => none
      | e :: r2 =>
        if e = '\x22' then (parseJString r2).map fun p => ('\x22' :: p.1, p.2)
        else if e = '\\' then (parseJString r2).map fun p => ('\\' :: p.1, p.2)
        else if e = '/' then (parseJString r2).map fun p => ('/' :: p.1, p.2)
        else if e = 'b' then (parseJString r2).map fun p => (Char.ofNat 8 :: p.1, p.2)
        else if e = 'f' then (parseJString r2).map fun p => (Char.ofNat 12 :: p.1, p.2)
        else if e = 'n' then (parseJString r2).map fun p => ('\n' :: p.1, p.2)
        else if e = 'r' then (parseJString r2).map fun p => ('\r' :: p.1, p.2)
        else if e = 't' then (parseJString r2).map fun p => ('\t' :: p.1, p.2)
        else if e = 'u' then
          match r2 with
          | h1 :: h2 :: h3 :: h4 :: r3 =>
            match hexVal h1, hexVal h2, hexVal h3, hexVal h4 with
            | some a, some b, some c2, some d =>
              (parseJString r3).map fun p =>
                (Char.ofNat (4096 * a + 256 * b + 16 * c2 + d) :: p.1, p.2)
            | _, _, _, _ => none
          | _ => none
        else none
    else if c.toNat < 32 then none
    else (parseJString rest).map fun p => (c :: p.1, p.2)

def digitsSpan (s : Str) : Str × Str :=
  (s.takeWhile Char.isDigit, s.dropWhile Char.isDigit)

def parseJFrac (s : Str) : Option (Str × Str) :=
  match s with
  | '.' :: r =>
    if (digitsSpan r).1 = [] then none
    else some ('.' :: (digitsSpan r).1, (digitsSpan r).2)
  | _ => some ([], s)

def parseJExp (s : Str) : Option (Str × Str) :=
  match s with
  | c :: r =>
    if c = 'e' ∨ c = 'E' then
      match r with
      | '+' :: rr =>
        if (digitsSpan rr).1 = [] then none
        else some (c :: '+' :: (digitsSpan rr).1, (digitsSpan rr).2)
      | '-' :: rr =>
        if (digitsSpan rr).1 = [] then none
        else some (c :: '-' :: (digitsSpan rr).1, (digitsSpan rr).2)
      | _ =>
        if (digitsSpan r).1 = [] then none
        else some (c :: (digitsSpan r).1, (digitsSpan r).2)
    else some ([], s)
  | [] => some ([], [])

/-- A JSON number token (returned as its raw spelling). -/
def parseJNumber (s : Str) : Option (Str × Str) :=
  let (sign, s1) : Str × Str := match s with | '-' :: r => (['-'], r) | _ => ([], s)
  match s1 with
  | '0' :: r =>
    match parseJFrac r with
    | none => none
    | some (fr, r2) =>
      match parseJExp r2 with
      | none => none
      | some (ex, r3) => some (sign ++ '0' :: (fr ++ ex), r3)
  | c :: r =>
    if '1' ≤ c ∧ c ≤ '9' then
      match parseJFrac (digitsSpan r).2 with
      | none => none
      | some (fr, r2) =>
        match parseJExp r2 with
        | none => none
        | some (ex, r3) => some (sign ++ c :: ((digitsSpan r).1 ++ fr ++ ex), r3)
    else none
  | [] => none

mutual

/-- `JSON.parse` values, with fuel bounding the recursion depth (one unit is
consumed per nested construct, so `length + 1` fuel never runs out). -/
def parseJValue : Nat → Str → Option (Json × Str)
  | 0, _ => none
  | Nat.succ fuel, s =>
    match skipJWs s with
    | [] => none
    | c :: rest =>
      if c = '\x22' then (parseJString rest).map fun p => (Json.str p.1, p.2)
      else if c = '{' then
        match skipJWs rest with
        | '}' :: r2 => some (Json.obj [], r2)
        | r1 => parseJMembers fuel r1 []
      else if c = '[' then
        match skipJWs rest with
        | ']' :: r2 => some (Json.arr [], r2)
        | r1 => parseJItems fuel r1 []
      else if isPref (strOf "true") (c :: rest) then
        some (Json.bool true, (c :: rest).drop 4)
      else if isPref (strOf "false") (c :: rest) then
        some (Json.bool false, (c :: rest).drop 5)
      else if isPref (strOf "null") (c :: rest) then
        some (Json.null, (c :: rest).drop 4)
      else (parseJNumber (c :: rest)).map fun p => (Json.num p.1, p.2)

def parseJMembers : Nat → Str → List (Str × Json) → Option (Json × Str)
  | 0, _, _ => none
  | Nat.succ fuel, s, acc =>
    match skipJWs s with
    | '\x22' :: r =>
      match parseJString r with
      | none => none
      | some (k, r2) =>
        match skipJWs r2 with
        | ':' :: r3 =>
          match parseJValue fuel r3 with
          | none => none
          | some (v, r4) =>
            match skipJWs r4 with
            | ',' :: r5 => parseJMembers fuel r5 (acc ++ [(k, v)])
            | '}' :: r5 => some (Json.obj (acc ++ [(k, v)]), r5)
            | _ => none
        | _ => none
    | _ => none

def parseJItems : Nat → Str → List Json → Option (Json × Str)
  | 0, _, _ => none
  | Nat.succ fuel, s, acc =>
    match parseJValue fuel s with
    | none => none
    | some (v, r) =>
      match skipJWs r with
      | ',' :: r2 => parseJItems fuel r2 (acc ++ [v])
      | ']' :: r2 => some (Json.arr (acc ++ [v]), r2)
      | _ => none

end

/-- `JSON.parse`: one value, optionally surrounded by whitespace. -/
def jsonParse (s : Str) : Option Json :=
  match parseJValue (s.length + 1) s with
  | none => none
  | some (v, rest) => if skipJWs rest = [] then some v else none

/-- The lookahead class of `normalizeBackslashesForJson`:
`["\\\/bfnrtu]`. -/
def bsAllowedNext (c : Char) : Bool :=
  c == '\x22' || c == '\\' || c == '/' || c == 'b' || c == 'f' ||
  c == 'n' || c == 'r' || c == 't' || c == 'u'

/-- `normalizeBackslashesForJson`: the global replace doubles every
backslash whose next character is outside the class (or which ends the
string), scanning one character at a time. -/
def normalizeBs : Str → Str
  | [] => []
  | c :: rest =>
    if c = '\\' then
      match rest with
      | d :: _ =>
        if bsAllowedNext d then c :: normalizeBs rest
        else c :: '\\' :: normalizeBs rest
      | [] => [c, '\\']
    else c :: normalizeBs rest

def fenceStr : Str := [Char.ofNat 96, Char.ofNat 96, Char.ofNat 96]

/-- `indexOf` of a needle (first matching position). -/
def findSubIdx (needle s : Str) : Option Nat :=
  ((List.range (s.length + 1)).filter fun i => isPref needle (s.drop i)).head?

/-- `lastIndexOf` of a needle (last matching position). -/
def findLastSubIdx (needle s : Str) : Option Nat :=
  ((List.range (s.length + 1)).filter fun i => isPref needle (s.drop i)).getLast?

/-- The fenced-json regex `/(three backticks)\s*json\s*([\s\S]*?)(three
backticks)/i` matched at one position: greedy whitespace, case-insensitive
`json`, lazy body up to the first closing fence. -/
def matchFencedJsonAt (s : Str) : Option Str :=
  if isPref fenceStr s then
    if isPref (strOf "json")
        ((((s.drop 3).dropWhile fun c => isJsWs c).take 4).map jsLower) then
      match findSubIdx fenceStr
          ((((s.drop 3).dropWhile fun c => isJsWs c).drop 4).dropWhile fun c => isJsWs c) with
      | some j => some
          (((((s.drop 3).dropWhile fun c => isJsWs c).drop 4).dropWhile fun c => isJsWs c).take j)
      | none => none
    else none
  else none

/-- The plain fenced regex matched at one position. -/
def matchFencedAt (s : Str) : Option Str :=
  if isPref fenceStr s then
    match findSubIdx fenceStr ((s.drop 3).dropWhile fun c => isJsWs c) with
    | some j => some (((s.drop 3).dropWhile fun c => isJsWs c).take j)
    | none => none
  else none

/-- Leftmost position at which the per-position matcher succeeds
(JavaScript `String.prototype.match`). -/
def findFirstSome (f : Str → Option Str) (s : Str) : Option Str :=
  ((List.range (s.length + 1)).filterMap fun i => f (s.drop i)).head?

/-- The brace-slice / trim fallback of `extractJsonCandidate`. -/
def extractJsonCandidate3 (s : Str) : Str :=
  match findSubIdx ['{'] s, findLastSubIdx ['}'] s with
  | some i, some j => if i < j then (s.drop i).take (j + 1 - i) else jsTrim s
  | some _, none => jsTrim s
  | none, _ => jsTrim s

/-- The any-fenced-block tier of `extractJsonCandidate` (an empty capture
group is falsy and falls through). -/
def extractJsonCandidate2 (s : Str) : Str :=
  match findFirstSome matchFencedAt s with
  | some g => if g = [] then extractJsonCandidate3 s else jsTrim g
  | none => extractJsonCandidate3 s

/-- `extractJsonCandidate`: prefer a fenced json block, then any fenced
block, then the substring between the first brace and the last closing
brace, then the trimmed response. -/
def extractJsonCandidate (s : Str) : Str :=
  match findFirstSome matchFencedJsonAt s with
  | some g => if g = [] then extractJsonCandidate2 s else jsTrim g
  | none => extractJsonCandidate2 s

/-- The fusion parse pipeline of `POST`: extract a candidate, `JSON.parse`
it, and on failure normalize backslashes and retry exactly once. -/
def fusionParse (raw : Str) : Option Json :=
  match jsonParse (extractJsonCandidate raw) with
  | some v => some v
  | none => jsonParse (normalizeBs (extractJsonCandidate raw))

/-- Counterexample to C6 as stated: the response is valid JSON except for
one stray unescaped backslash inside the string value (removing the
backslash parses), yet the pipeline yields a null parse, because the repair
leaves a backslash alone whenever the next character is `u`, even though
`\up…` is not a valid JSON escape. -/
theorem C6_json_repair_counterexample :
    fusionParse (strOf "\x7b\"a\":\"\\up\"\x7d") = none ∧
    jsonParse (strOf "\x7b\"a\":\"up\"\x7d") =
      some (Json.obj [(strOf "a", Json.str (strOf "up"))]) := by
  exact ⟨rfl, rfl⟩

theorem normalizeBs_cons_ne (x : Char) (t : Str) (hx : ¬x = '\\') :
    normalizeBs (x :: t) = x :: normalizeBs t := by
  simp [normalizeBs, hx]

/-- Claim C6 as amended: the pipeline extracts a candidate (fenced json
block, then any fenced block, then brace slice), attempts `JSON.parse`, and
on failure escapes every backslash whose NEXT CHARACTER is outside
`" \ / b f n r t u` and retries exactly once — abandoning (null parse, no
exception) only when both parses fail.  A stray backslash whose following
character is outside that set is thereby recovered, but a stray backslash
followed by `u` without four hex digits defeats the repair; a response with
no parseable candidate yields a null parse. -/
theorem C6_json_repair_amended :
    (∀ s : Str, fusionParse s = none ↔
      jsonParse (extractJsonCandidate s) = none ∧
      jsonParse (normalizeBs (extractJsonCandidate s)) = none) ∧
    (∀ s : Str, ∀ v : Json, jsonParse (extractJsonCandidate s) = some v →
      fusionParse s = some v) ∧
    (∀ (l r : Str) (c : Char), (∀ x ∈ l, ¬x = '\\') →
      (bsAllowedNext c = false →
        normalizeBs (l ++ '\\' :: c :: r) = l ++ '\\' :: '\\' :: normalizeBs (c :: r)) ∧
      (bsAllowedNext c = true →
        normalizeBs (l ++ '\\' :: c :: r) = l ++ '\\' :: normalizeBs (c :: r))) ∧
    (∀ c : Char, c ∈ ['q', 'x', 'z', 'g', '!', '?', '(', '9'] →
      fusionParse (strOf "\x7b\"a\":\"x\\" ++ c :: strOf "y\"\x7d") =
        some (Json.obj [(strOf "a", Json.str ('x' :: '\\' :: c :: ['y']))])) ∧
    fusionParse (strOf "no json here at all") = none := by
  refine ⟨?_, ?_, ?_, ?_, rfl⟩
  · intro s
    cases h : jsonParse (extractJsonCandidate s) with
    | none => simp [fusionParse, h]
    | some v => simp [fusionParse, h]
  · intro s v h
    simp [fusionParse, h]
  · intro l r c hl
    induction l with
    | nil =>
      constructor
      · intro hfalse
        simp [normalizeBs, hfalse]
      · intro htrue
        simp [normalizeBs, htrue]
    | cons x xs ih =>
      have hx : ¬x = '\\' := hl x (List.mem_cons_self x xs)
      have ihtail := ih fun y hy => hl y (List.mem_cons_of_mem x hy)
      constructor
      · intro hfalse
        rw [List.cons_append, normalizeBs_cons_ne x _ hx, ihtail.1 hfalse]
        rfl
      · intro htrue
        rw [List.cons_append, normalizeBs_cons_ne x _ hx, ihtail.2 htrue]
        rfl
  · intro c hc
    simp only [List.mem_cons, List.not_mem_nil, or_false] at hc
    rcases hc with rfl | rfl | rfl | rfl | rfl | rfl | rfl | rfl <;> rfl

/-- Witness for C6 (amended): a stray backslash before `q` is recovered into
the parsed object by the repair retry. -/
theorem C6_json_repair_amended_witness :
    fusionParse (strOf "\x7b\"a\":\"x\\" ++ 'q' :: strOf "y\"\x7d") =
      some (Json.obj [(strOf "a", Json.str ('x' :: '\\' :: 'q' :: ['y']))]) :=
  C6_json_repair_amended.2.2.2.1 'q' (by simp)

end Neil
